import Mathlib

/-!
Verification of the playback and preload engine of the Wavelength audio feed
(the `AudioFeed` and `AudioVisualizer` components).  The definitions below
shallowly embed the TypeScript source; the theorems settle the design
specification's claims about that code.
-/

namespace Wavelength

/-! ## Feed sequencer (`AudioFeed`)

JavaScript numbers holding `currentIndex` are modelled as `Option Int`:
`some x` is the finite integer `x`, `none` is `NaN`.  The JS remainder
operator truncates toward zero (`Int.tmod`) and yields `NaN` when the
divisor is `0`.
-/

/-- JS remainder `a % n` for a possibly-NaN left operand and a length `n`. -/
def jsRem (a : Option Int) (n : Nat) : Option Int :=
  match a with
  | none => none
  | some x => if n = 0 then none else some (x.tmod n)

/-- Embeds `handleNext`: `setCurrentIndex(prev => (prev + 1) % snippets.length)`. -/
def handleNext (len : Nat) (cur : Option Int) : Option Int :=
  jsRem (cur.map (fun x => x + 1)) len

/-- Embeds `handlePrevious`:
`setCurrentIndex(prev => (prev - 1 + snippets.length) % snippets.length)`. -/
def handlePrevious (len : Nat) (cur : Option Int) : Option Int :=
  jsRem (cur.map (fun x => x - 1 + (len : Int))) len

/-- Embeds the `AudioSnippet` interface.  The optional `liked` field is
`Option Bool`; an absent field (`none`) is falsy in JS. -/
structure Track where
  url : String
  name : String
  created_at : String
  liked : Option Bool
deriving DecidableEq

/-- JS truthiness of the optional `liked` field. -/
def Track.likedTruthy (t : Track) : Bool := t.liked.getD false

/-- Embeds `handleDoubleTap`: copies the snippet array and replaces the entry at
the raw `currentIndex` with a copy whose `liked` flag is negated. -/
def handleDoubleTap (snippets : List Track) (currentIndex : Nat) : List Track :=
  snippets.set currentIndex
    (let t := snippets.getD currentIndex ⟨"", "", "", none⟩
     { t with liked := some (! t.likedTruthy) })

/-- Embeds `getCurrentTrack`: `null` when either list is empty, otherwise
`snippets[playOrder[currentIndex % playOrder.length]]`. -/
def getCurrentTrack (snippets : List Track) (playOrder : List Nat)
    (currentIndex : Nat) : Option Track :=
  if snippets.length = 0 ∨ playOrder.length = 0 then none
  else snippets[playOrder.getD (currentIndex % playOrder.length) 0]?

/-- Modelled from the spec (§4.1, `toggleLike()`): flips `liked` on the track at
the current play-order position, an immutable replace of that one entry.  Stated
only to exhibit how the source's `handleDoubleTap` diverges from it. -/
def toggleLikeSpec (snippets : List Track) (playOrder : List Nat)
    (currentIndex : Nat) : List Track :=
  let idx := playOrder.getD (currentIndex % playOrder.length) 0
  snippets.set idx
    (let t := snippets.getD idx ⟨"", "", "", none⟩
     { t with liked := some (! t.likedTruthy) })

/-! ### Arithmetic helpers for the navigation round trip -/

theorem tmod_next_prev (i : Int) (n : Nat) (hn : 0 < n) (h0 : 0 ≤ i)
    (hi : i < (n : Int)) : ((i + 1).tmod n - 1 + n).tmod n = i := by
  have hn0 : (0 : Int) < n := by exact_mod_cast hn
  have h1 : (i + 1).tmod n = (i + 1) % (n : Int) :=
    Int.tmod_eq_emod (by omega) (by omega)
  have hr0 : 0 ≤ (i + 1) % (n : Int) := Int.emod_nonneg _ (by omega)
  rw [h1]
  have h2 : ((i + 1) % (n : Int) - 1 + n).tmod n = ((i + 1) % (n : Int) - 1 + n) % n :=
    Int.tmod_eq_emod (by omega) (by omega)
  rw [h2]
  have h3 : (i + 1) % (n : Int) - 1 + n = (i + 1) % (n : Int) + (n - 1) := by ring
  rw [h3, Int.emod_add_emod]
  have h4 : i + 1 + ((n : Int) - 1) = i + 1 * n := by ring
  rw [h4, Int.add_mul_emod_self]
  exact Int.emod_eq_of_lt h0 hi

theorem tmod_prev_next (i : Int) (n : Nat) (hn : 0 < n) (h0 : 0 ≤ i)
    (hi : i < (n : Int)) : ((i - 1 + n).tmod n + 1).tmod n = i := by
  have hn0 : (0 : Int) < n := by exact_mod_cast hn
  have h1 : (i - 1 + n).tmod n = (i - 1 + n) % (n : Int) :=
    Int.tmod_eq_emod (by omega) (by omega)
  have hr0 : 0 ≤ (i - 1 + (n : Int)) % n := Int.emod_nonneg _ (by omega)
  rw [h1]
  have h2 : ((i - 1 + (n : Int)) % n + 1).tmod n = ((i - 1 + (n : Int)) % n + 1) % n :=
    Int.tmod_eq_emod (by omega) (by omega)
  rw [h2, Int.emod_add_emod]
  have h4 : i - 1 + (n : Int) + 1 = i + 1 * n := by ring
  rw [h4, Int.add_mul_emod_self]
  exact Int.emod_eq_of_lt h0 hi

/-- Claim C7: for every non-empty track list, `next()` then `previous()` (and
`previous()` then `next()`) returns `currentIndex mod length` — and hence the
current track — to its original value. -/
theorem next_previous_roundtrip (n : Nat) (i : Int) (hn : 0 < n) (h0 : 0 ≤ i)
    (hi : i < (n : Int)) :
    handlePrevious n (handleNext n (some i)) = some i ∧
    handleNext n (handlePrevious n (some i)) = some i := by
  have hne : ¬ n = 0 := Nat.pos_iff_ne_zero.mp hn
  constructor
  · simp only [handleNext, handlePrevious, jsRem, Option.map_some', if_neg hne]
    exact congrArg some (tmod_next_prev i n hn h0 hi)
  · simp only [handleNext, handlePrevious, jsRem, Option.map_some', if_neg hne]
    exact congrArg some (tmod_prev_next i n hn h0 hi)

/-- Witness for C7 at a concrete input: three tracks, current index 2. -/
theorem next_previous_roundtrip_witness :
    handlePrevious 3 (handleNext 3 (some 2)) = some 2 ∧
    handleNext 3 (handlePrevious 3 (some 2)) = some 2 :=
  next_previous_roundtrip 3 2 (by decide) (by decide) (by decide)

/-- Claim C9, counterexample: the modulo arithmetic in `handleNext` is not
guarded against a zero length.  On the empty track list the JS remainder
`(0 + 1) % 0` evaluates to `NaN` (`none`), so `currentIndex` does not stay an
actual number. -/
theorem navigation_empty_unguarded : handleNext 0 (some 0) = none := by decide

/-- Claim C9 as amended: invoking `next()` or `previous()` on an empty track
list does not throw — the embedded updaters are total — but the modulo
arithmetic is unguarded: the JS remainder by zero yields `NaN`, so both updates
send any `currentIndex` (finite or already `NaN`) to `NaN` (`none`). -/
theorem navigation_empty_total_nan (cur : Option Int) :
    handleNext 0 cur = none ∧ handlePrevious 0 cur = none := by
  cases cur <;> simp [handleNext, handlePrevious, jsRem]

/-- Claim C2, evaluated at the failing input: with `tracks = [a, b]`,
`playOrder = [1, 0]` and `currentIndex = 0`, the displayed current track is `b`
(`tracks[playOrder[0]]`), yet `handleDoubleTap` flips `liked` on `a`
(`tracks[0]`, the raw index) and leaves `b` untouched, while the spec-modelled
`toggleLike` flips `b`.  The like lands on a track other than the one playing. -/
theorem doubleTap_flips_wrong_track :
    let a : Track := ⟨"url-a", "a.webm", "t0", none⟩
    let b : Track := ⟨"url-b", "b.webm", "t1", none⟩
    getCurrentTrack [a, b] [1, 0] 0 = some b ∧
    handleDoubleTap [a, b] 0 = [{ a with liked := some true }, b] ∧
    toggleLikeSpec [a, b] [1, 0] 0 = [a, { b with liked := some true }] ∧
    handleDoubleTap [a, b] 0 ≠ toggleLikeSpec [a, b] [1, 0] 0 := by
  exact ⟨by decide, by decide, by decide, by decide⟩

/-! ## Preload cache manager (`AudioFeed`)

The JS `Map` in `preloadedAudiosRef` is modelled as an insertion-ordered
association list with unique keys; the `HTMLAudioElement` held by each entry is
abstracted away, keeping the `loaded` and `error` flags.  The outcome of one
preparation attempt (awaiting `canplaythrough` versus `error`) is supplied by
the environment as a `Bool`, `true` meaning the resource became playable.
-/

structure PreloadedAudio where
  loaded : Bool
  error : Bool
deriving DecidableEq

abbrev AudioMap := List (String × PreloadedAudio)

def mapFind? : AudioMap → String → Option PreloadedAudio
  | [], _ => none
  | (k', v) :: rest, k => if k' = k then some v else mapFind? rest k

def mapHas (m : AudioMap) (k : String) : Bool := (mapFind? m k).isSome

/-- JS `Map.set`: replace in place when the key exists, else append. -/
def mapSet : AudioMap → String → PreloadedAudio → AudioMap
  | [], k, v => [(k, v)]
  | (k', v') :: rest, k, v =>
    if k' = k then (k, v) :: rest else (k', v') :: mapSet rest k v

/-- JS `Map.delete`: remove the (unique) binding of the key, if present. -/
def mapDelete : AudioMap → String → AudioMap
  | [], _ => []
  | (k', v') :: rest, k => if k' = k then rest else (k', v') :: mapDelete rest k

def mapKeys (m : AudioMap) : List String := m.map (fun p => p.1)

/-- Character-list substring test, embedding JS `String.prototype.includes`. -/
def matchesAt : List Char → List Char → Bool
  | [], _ => true
  | _ :: _, [] => false
  | p :: ps, c :: cs => p == c && matchesAt ps cs

def occursIn (pat : List Char) : List Char → Bool
  | [] => pat.isEmpty
  | c :: cs => matchesAt pat (c :: cs) || occursIn pat cs

def placeholderMark : String := ".emptyFolderPlaceholder"

/-- Embeds `url.includes('.emptyFolderPlaceholder')`. -/
def isPlaceholder (url : String) : Bool := occursIn placeholderMark.toList url.toList

/-- Embeds the shared guard `if (!url || url.includes('.emptyFolderPlaceholder'))`. -/
def invalidPreloadUrl (url : String) : Bool := url == "" || isPlaceholder url

/-- State of the preload subsystem: the cache map, the pending URL queue and the
`isPreloadingRef` worker flag. -/
structure PreloadState where
  preloadedAudios : AudioMap
  preloadQueue : List String
  isPreloading : Bool
deriving DecidableEq

def maxPreloadCount : Nat := 3

/-- Embeds the tail of `preloadAudio` after its guards: a pending entry is
stored in the cache, the load is awaited, and the entry is marked `loaded` on
success or `error` on failure; failure also rethrows (second component `true`
means the call threw). -/
def preloadAttempt (ok : Bool) (url : String) (s : PreloadState) :
    PreloadState × Bool :=
  let pending := { s with
    preloadedAudios := mapSet s.preloadedAudios url ⟨false, false⟩ }
  if ok then
    ({ pending with
        preloadedAudios := mapSet pending.preloadedAudios url ⟨true, false⟩ },
      false)
  else
    ({ pending with
        preloadedAudios := mapSet pending.preloadedAudios url ⟨false, true⟩ },
      true)

/-- Embeds `preloadAudio`: skip placeholder URLs, skip when the cache already
holds `maxPreloadCount` entries, skip a cached non-errored URL, delete a cached
errored URL before retrying, then run the preparation attempt. -/
def preloadAudio (ok : Bool) (url : String) (s : PreloadState) :
    PreloadState × Bool :=
  if invalidPreloadUrl url then (s, false)
  else if maxPreloadCount ≤ s.preloadedAudios.length then (s, false)
  else
    match mapFind? s.preloadedAudios url with
    | some entry =>
      if entry.error then
        preloadAttempt ok url
          { s with preloadedAudios := mapDelete s.preloadedAudios url }
      else (s, false)
    | none => preloadAttempt ok url s

/-- Embeds one pass of `processPreloadQueue`: return when the worker is busy or
the queue is empty, else prepare the head; on success the head is shifted off,
on failure it is shifted off and re-appended to the tail.  The `setTimeout`
re-drive and the `queuePreload` call sites are modelled as separate driver
steps, matching the task boundaries of the event loop. -/
def processPreloadQueue (ok : Bool) (s : PreloadState) : PreloadState :=
  match s.preloadQueue with
  | [] => s
  | url :: rest =>
    if s.isPreloading then s
    else
      let r := preloadAudio ok url { s with isPreloading := true }
      { r.1 with
        preloadQueue := if r.2 then rest ++ [url] else rest,
        isPreloading := false }

/-- Embeds `queuePreload`'s own body: guard, dedupe against queue and cache,
push to the tail.  (Its synchronous `processPreloadQueue()` call suspends at an
`await` before any state change, so it is a separate driver step.) -/
def queuePreload (url : String) (s : PreloadState) : PreloadState :=
  if invalidPreloadUrl url then s
  else if s.preloadQueue.contains url || mapHas s.preloadedAudios url then s
  else { s with preloadQueue := s.preloadQueue ++ [url] }

/-- One externally observable operation on the preload subsystem. -/
inductive PreloadAction where
  | warm (url : String)
  | pass (ok : Bool)
deriving DecidableEq

def runPreload : List PreloadAction → PreloadState → PreloadState
  | [], s => s
  | .warm u :: rest, s => runPreload rest (queuePreload u s)
  | .pass ok :: rest, s => runPreload rest (processPreloadQueue ok s)

/-! ### Association-map lemmas -/

theorem mapKeys_length (m : AudioMap) : (mapKeys m).length = m.length :=
  List.length_map m _

theorem mapHas_iff_mem (m : AudioMap) (k : String) :
    mapHas m k = true ↔ k ∈ mapKeys m := by
  induction m with
  | nil => simp [mapHas, mapFind?, mapKeys]
  | cons p rest ih =>
    obtain ⟨k', v'⟩ := p
    by_cases h : k' = k
    · subst h
      simp [mapHas, mapFind?, mapKeys]
    · simp only [mapHas, mapFind?, if_neg h, mapKeys, List.map_cons, List.mem_cons]
      rw [← mapKeys]
      constructor
      · intro hs
        exact Or.inr ((ih).mp hs)
      · intro hs
        rcases hs with hs | hs
        · exact absurd hs.symm h
        · exact ih.mpr hs

theorem mapFind?_mapSet_self (m : AudioMap) (k : String) (v : PreloadedAudio) :
    mapFind? (mapSet m k v) k = some v := by
  induction m with
  | nil => simp [mapSet, mapFind?]
  | cons p rest ih =>
    obtain ⟨k', v'⟩ := p
    by_cases h : k' = k
    · simp [mapSet, mapFind?, h]
    · simp [mapSet, mapFind?, h, ih]

theorem mapHas_mapSet_self (m : AudioMap) (k : String) (v : PreloadedAudio) :
    mapHas (mapSet m k v) k = true := by
  simp [mapHas, mapFind?_mapSet_self]

theorem mapKeys_mapSet_of_has (m : AudioMap) (k : String) (v : PreloadedAudio)
    (h : mapHas m k = true) : mapKeys (mapSet m k v) = mapKeys m := by
  induction m with
  | nil => simp [mapHas, mapFind?] at h
  | cons p rest ih =>
    obtain ⟨k', v'⟩ := p
    by_cases hk : k' = k
    · subst hk
      simp [mapSet, mapKeys]
    · simp only [mapHas, mapFind?, if_neg hk] at h
      simp only [mapSet, if_neg hk, mapKeys, List.map_cons]
      exact congrArg (List.cons k') (ih h)

theorem mapKeys_mapSet_of_not_has (m : AudioMap) (k : String) (v : PreloadedAudio)
    (h : mapHas m k = false) : mapKeys (mapSet m k v) = mapKeys m ++ [k] := by
  induction m with
  | nil => simp [mapSet, mapKeys]
  | cons p rest ih =>
    obtain ⟨k', v'⟩ := p
    by_cases hk : k' = k
    · subst hk
      simp [mapHas, mapFind?] at h
    · simp only [mapHas, mapFind?, if_neg hk] at h
      simp only [mapSet, if_neg hk, mapKeys, List.map_cons, List.cons_append]
      exact congrArg (List.cons k') (ih h)

theorem mapKeys_mapDelete_sublist (m : AudioMap) (k : String) :
    (mapKeys (mapDelete m k)).Sublist (mapKeys m) := by
  induction m with
  | nil => simp [mapDelete, mapKeys]
  | cons p rest ih =>
    obtain ⟨k', v'⟩ := p
    by_cases hk : k' = k
    · have hdel : mapDelete ((k', v') :: rest) k = rest := by simp [mapDelete, hk]
      rw [hdel]
      exact List.sublist_cons_self k' (mapKeys rest)
    · have hdel : mapDelete ((k', v') :: rest) k = (k', v') :: mapDelete rest k := by
        simp [mapDelete, hk]
      rw [hdel]
      exact ih.cons₂ k'

theorem mapDelete_length_le (m : AudioMap) (k : String) :
    (mapDelete m k).length ≤ m.length := by
  have h := (mapKeys_mapDelete_sublist m k).length_le
  rw [mapKeys_length, mapKeys_length] at h
  exact h

theorem mapDelete_length_of_has (m : AudioMap) (k : String)
    (h : mapHas m k = true) : m.length = (mapDelete m k).length + 1 := by
  induction m with
  | nil => simp [mapHas, mapFind?] at h
  | cons p rest ih =>
    obtain ⟨k', v'⟩ := p
    by_cases hk : k' = k
    · simp [mapDelete, hk]
    · simp only [mapHas, mapFind?, if_neg hk] at h
      simp [mapDelete, hk, ih h]

theorem mapHas_mapDelete_self (m : AudioMap) (k : String)
    (hnd : (mapKeys m).Nodup) : mapHas (mapDelete m k) k = false := by
  induction m with
  | nil => simp [mapDelete, mapHas, mapFind?]
  | cons p rest ih =>
    obtain ⟨k', v'⟩ := p
    simp only [mapKeys, List.map_cons, List.nodup_cons] at hnd
    by_cases hk : k' = k
    · subst hk
      have hdel : mapDelete ((k', v') :: rest) k' = rest := by simp [mapDelete]
      rw [hdel]
      cases h : mapHas rest k' with
      | false => rfl
      | true => exact absurd ((mapHas_iff_mem rest k').mp h) hnd.1
    · have hdel : mapDelete ((k', v') :: rest) k = (k', v') :: mapDelete rest k := by
        simp [mapDelete, hk]
      rw [hdel]
      simp only [mapHas, mapFind?, if_neg hk]
      exact ih hnd.2

/-! ### Frame and shape lemmas for the preload operations -/

theorem preloadAttempt_queue (ok : Bool) (url : String) (s : PreloadState) :
    (preloadAttempt ok url s).1.preloadQueue = s.preloadQueue := by
  cases ok <;> rfl

theorem preloadAttempt_busy (ok : Bool) (url : String) (s : PreloadState) :
    (preloadAttempt ok url s).1.isPreloading = s.isPreloading := by
  cases ok <;> rfl

theorem preloadAttempt_threw (ok : Bool) (url : String) (s : PreloadState) :
    (preloadAttempt ok url s).2 = !ok := by
  cases ok <;> rfl

theorem preloadAttempt_find_self (ok : Bool) (url : String) (s : PreloadState) :
    mapFind? (preloadAttempt ok url s).1.preloadedAudios url =
      some (if ok then ⟨true, false⟩ else ⟨false, true⟩) := by
  cases ok <;> simp [preloadAttempt, mapFind?_mapSet_self]

theorem preloadAttempt_keys (ok : Bool) (url : String) (s : PreloadState) :
    mapKeys (preloadAttempt ok url s).1.preloadedAudios =
      if mapHas s.preloadedAudios url then mapKeys s.preloadedAudios
      else mapKeys s.preloadedAudios ++ [url] := by
  have hset := mapHas_mapSet_self s.preloadedAudios url ⟨false, false⟩
  by_cases h : mapHas s.preloadedAudios url
  · cases ok <;>
      simp [preloadAttempt, mapKeys_mapSet_of_has _ _ _ hset,
        mapKeys_mapSet_of_has _ _ _ h, h]
  · rcases hb : mapHas s.preloadedAudios url with _ | _
    · cases ok <;>
        simp [preloadAttempt, mapKeys_mapSet_of_has _ _ _ hset,
          mapKeys_mapSet_of_not_has _ _ _ hb, hb]
    · exact absurd hb h

theorem preloadAttempt_length (ok : Bool) (url : String) (s : PreloadState) :
    (preloadAttempt ok url s).1.preloadedAudios.length =
      if mapHas s.preloadedAudios url then s.preloadedAudios.length
      else s.preloadedAudios.length + 1 := by
  have h := congrArg List.length (preloadAttempt_keys ok url s)
  by_cases hb : mapHas s.preloadedAudios url <;>
    simpa [mapKeys_length, hb] using h

theorem preloadAudio_full (ok : Bool) (url : String) (s : PreloadState)
    (h : maxPreloadCount ≤ s.preloadedAudios.length) :
    preloadAudio ok url s = (s, false) := by
  unfold preloadAudio
  by_cases h1 : invalidPreloadUrl url = true
  · rw [if_pos h1]
  · rw [if_neg h1, if_pos h]

theorem preloadAudio_none (ok : Bool) (url : String) (s : PreloadState)
    (h1 : invalidPreloadUrl url = false)
    (h2 : s.preloadedAudios.length < maxPreloadCount)
    (hf : mapFind? s.preloadedAudios url = none) :
    preloadAudio ok url s = preloadAttempt ok url s := by
  unfold preloadAudio
  rw [if_neg (by simp [h1]), if_neg (by omega), hf]

theorem preloadAudio_some_err (ok : Bool) (url : String) (s : PreloadState)
    (e : PreloadedAudio)
    (h1 : invalidPreloadUrl url = false)
    (h2 : s.preloadedAudios.length < maxPreloadCount)
    (hf : mapFind? s.preloadedAudios url = some e) (he : e.error = true) :
    preloadAudio ok url s =
      preloadAttempt ok url
        { s with preloadedAudios := mapDelete s.preloadedAudios url } := by
  unfold preloadAudio
  rw [if_neg (by simp [h1]), if_neg (by omega), hf]
  simp [he]

theorem preloadAudio_some_fine (ok : Bool) (url : String) (s : PreloadState)
    (e : PreloadedAudio)
    (h1 : invalidPreloadUrl url = false)
    (h2 : s.preloadedAudios.length < maxPreloadCount)
    (hf : mapFind? s.preloadedAudios url = some e) (he : e.error = false) :
    preloadAudio ok url s = (s, false) := by
  unfold preloadAudio
  rw [if_neg (by simp [h1]), if_neg (by omega), hf]
  simp [he]

/-- On a constructor-literal state, one queue pass reduces to: go busy, prepare
the head, then shift (and on failure re-append) the head. -/
theorem processPreloadQueue_cons (ok : Bool) (cache : AudioMap) (url : String)
    (rest : List String) :
    processPreloadQueue ok ⟨cache, url :: rest, false⟩ =
      { (preloadAudio ok url ⟨cache, url :: rest, true⟩).1 with
        preloadQueue :=
          (if (preloadAudio ok url ⟨cache, url :: rest, true⟩).2 then
            rest ++ [url] else rest),
        isPreloading := false } := rfl

/-- Characterizes a failing preparation of a valid, below-capacity URL whose
cache entry (if any) is errored: the call throws and leaves the entry errored. -/
theorem preloadAudio_fails (url : String) (s : PreloadState)
    (hvalid : invalidPreloadUrl url = false)
    (hroom : s.preloadedAudios.length < maxPreloadCount)
    (herr : ∀ e, mapFind? s.preloadedAudios url = some e → e.error = true) :
    (preloadAudio false url s).2 = true ∧
    mapFind? (preloadAudio false url s).1.preloadedAudios url =
      some ⟨false, true⟩ ∧
    (preloadAudio false url s).1.preloadQueue = s.preloadQueue ∧
    (preloadAudio false url s).1.isPreloading = s.isPreloading := by
  cases hf : mapFind? s.preloadedAudios url with
  | none =>
    rw [preloadAudio_none false url s hvalid hroom hf]
    refine ⟨preloadAttempt_threw false url s, ?_, preloadAttempt_queue false url s,
      preloadAttempt_busy false url s⟩
    simpa using preloadAttempt_find_self false url s
  | some e =>
    rw [preloadAudio_some_err false url s e hvalid hroom hf (herr e hf)]
    refine ⟨preloadAttempt_threw false url _, ?_, preloadAttempt_queue false url _,
      preloadAttempt_busy false url _⟩
    simpa using preloadAttempt_find_self false url
      { s with preloadedAudios := mapDelete s.preloadedAudios url }

/-! ### Cache invariant and size monotonicity -/

def cacheInv (m : AudioMap) : Prop :=
  m.length ≤ maxPreloadCount ∧ (mapKeys m).Nodup

instance (m : AudioMap) : Decidable (cacheInv m) :=
  inferInstanceAs (Decidable (m.length ≤ maxPreloadCount ∧ (mapKeys m).Nodup))

abbrev preloadInv (s : PreloadState) : Prop := cacheInv s.preloadedAudios

theorem cacheInv_preloadAttempt (ok : Bool) (url : String) (s : PreloadState)
    (hlen : s.preloadedAudios.length + 1 ≤ maxPreloadCount)
    (hnd : (mapKeys s.preloadedAudios).Nodup) :
    cacheInv (preloadAttempt ok url s).1.preloadedAudios := by
  have hk := preloadAttempt_keys ok url s
  have hl := preloadAttempt_length ok url s
  by_cases h : mapHas s.preloadedAudios url
  · refine ⟨?_, ?_⟩
    · rw [hl, if_pos h]; omega
    · rw [hk, if_pos h]; exact hnd
  · refine ⟨?_, ?_⟩
    · rw [hl, if_neg h]; omega
    · rw [hk, if_neg h]
      have hmem : url ∉ mapKeys s.preloadedAudios := fun hm =>
        h ((mapHas_iff_mem _ _).mpr hm)
      simp [List.nodup_append, hnd, hmem]

theorem preloadAudio_cacheInv (ok : Bool) (url : String) (s : PreloadState)
    (h : cacheInv s.preloadedAudios) :
    cacheInv (preloadAudio ok url s).1.preloadedAudios := by
  by_cases h1 : invalidPreloadUrl url = true
  · unfold preloadAudio
    rw [if_pos h1]
    exact h
  · have h1' : invalidPreloadUrl url = false := by
      cases hh : invalidPreloadUrl url
      · rfl
      · exact absurd hh h1
    by_cases h2 : maxPreloadCount ≤ s.preloadedAudios.length
    · rw [preloadAudio_full ok url s h2]
      exact h
    · have h2' : s.preloadedAudios.length < maxPreloadCount := by omega
      cases hf : mapFind? s.preloadedAudios url with
      | none =>
        rw [preloadAudio_none ok url s h1' h2' hf]
        exact cacheInv_preloadAttempt ok url s (by omega) h.2
      | some e =>
        cases he : e.error with
        | true =>
          rw [preloadAudio_some_err ok url s e h1' h2' hf he]
          refine cacheInv_preloadAttempt ok url _ ?_ ?_
          · show (mapDelete s.preloadedAudios url).length + 1 ≤ maxPreloadCount
            have := mapDelete_length_le s.preloadedAudios url
            omega
          · exact List.Nodup.sublist (mapKeys_mapDelete_sublist s.preloadedAudios url) h.2
        | false =>
          rw [preloadAudio_some_fine ok url s e h1' h2' hf he]
          exact h

theorem preloadAudio_length_mono (ok : Bool) (url : String) (s : PreloadState)
    (hnd : (mapKeys s.preloadedAudios).Nodup) :
    s.preloadedAudios.length ≤ (preloadAudio ok url s).1.preloadedAudios.length := by
  by_cases h1 : invalidPreloadUrl url = true
  · unfold preloadAudio
    rw [if_pos h1]
  · have h1' : invalidPreloadUrl url = false := by
      cases hh : invalidPreloadUrl url
      · rfl
      · exact absurd hh h1
    by_cases h2 : maxPreloadCount ≤ s.preloadedAudios.length
    · rw [preloadAudio_full ok url s h2]
    · have h2' : s.preloadedAudios.length < maxPreloadCount := by omega
      cases hf : mapFind? s.preloadedAudios url with
      | none =>
        rw [preloadAudio_none ok url s h1' h2' hf, preloadAttempt_length]
        split <;> omega
      | some e =>
        cases he : e.error with
        | true =>
          rw [preloadAudio_some_err ok url s e h1' h2' hf he, preloadAttempt_length]
          have hhas : mapHas s.preloadedAudios url = true := by
            simp [mapHas, hf]
          have hdel := mapDelete_length_of_has s.preloadedAudios url hhas
          have hnohas :
              mapHas ({ s with
                preloadedAudios := mapDelete s.preloadedAudios url }).preloadedAudios url
                = false :=
            mapHas_mapDelete_self s.preloadedAudios url hnd
          rw [hnohas]
          show s.preloadedAudios.length ≤
            (mapDelete s.preloadedAudios url).length + 1
          omega
        | false =>
          rw [preloadAudio_some_fine ok url s e h1' h2' hf he]

theorem queuePreload_cache (url : String) (s : PreloadState) :
    (queuePreload url s).preloadedAudios = s.preloadedAudios := by
  unfold queuePreload
  split
  · rfl
  · split
    · rfl
    · rfl

theorem processPreloadQueue_cacheInv (ok : Bool) (s : PreloadState)
    (h : cacheInv s.preloadedAudios) :
    cacheInv (processPreloadQueue ok s).preloadedAudios := by
  unfold processPreloadQueue
  split
  · exact h
  · split
    · exact h
    · exact preloadAudio_cacheInv ok _ { s with isPreloading := true } h

theorem processPreloadQueue_length_mono (ok : Bool) (s : PreloadState)
    (hnd : (mapKeys s.preloadedAudios).Nodup) :
    s.preloadedAudios.length ≤
      (processPreloadQueue ok s).preloadedAudios.length := by
  unfold processPreloadQueue
  split
  · exact le_refl _
  · split
    · exact le_refl _
    · exact preloadAudio_length_mono ok _ { s with isPreloading := true } hnd

theorem processPreloadQueue_cache_full (ok : Bool) (s : PreloadState)
    (hf : maxPreloadCount ≤ s.preloadedAudios.length) :
    (processPreloadQueue ok s).preloadedAudios = s.preloadedAudios := by
  unfold processPreloadQueue
  split
  · rfl
  · split
    · rfl
    · next url rest heq hbusy =>
      have := preloadAudio_full ok url { s with isPreloading := true } hf
      simp [this]

theorem runPreload_cache_frozen (acts : List PreloadAction) :
    ∀ s : PreloadState, maxPreloadCount ≤ s.preloadedAudios.length →
      (runPreload acts s).preloadedAudios = s.preloadedAudios := by
  induction acts with
  | nil => intro s _; rfl
  | cons a rest ih =>
    intro s hf
    cases a with
    | warm u =>
      have hc := queuePreload_cache u s
      have hrec := ih (queuePreload u s) (by rw [hc]; exact hf)
      show (runPreload rest (queuePreload u s)).preloadedAudios = s.preloadedAudios
      rw [hrec, hc]
    | pass ok =>
      have hc := processPreloadQueue_cache_full ok s hf
      have hrec := ih (processPreloadQueue ok s) (by rw [hc]; exact hf)
      show (runPreload rest (processPreloadQueue ok s)).preloadedAudios =
        s.preloadedAudios
      rw [hrec, hc]

/-! ### Claims C3, C4, C5, C10 -/

/-- Claim C5: the preload-cache invariant — at most `maxPreloadCount` (3)
entries, and any given URL bound at most once — is preserved by every warm,
preload and queue-processing operation. -/
theorem preload_cache_invariant_preserved (s : PreloadState) (url : String)
    (ok : Bool) (h : preloadInv s) :
    preloadInv (queuePreload url s) ∧
    preloadInv (preloadAudio ok url s).1 ∧
    preloadInv (processPreloadQueue ok s) := by
  refine ⟨?_, preloadAudio_cacheInv ok url s h, processPreloadQueue_cacheInv ok s h⟩
  show cacheInv (queuePreload url s).preloadedAudios
  rw [queuePreload_cache]
  exact h

/-- Witness for C5: the invariant propagates from the empty initial state. -/
theorem preload_cache_invariant_preserved_witness :
    preloadInv (queuePreload "u.webm" ⟨[], [], false⟩) ∧
    preloadInv (preloadAudio true "u.webm" ⟨[], [], false⟩).1 ∧
    preloadInv (processPreloadQueue true ⟨[], [], false⟩) :=
  preload_cache_invariant_preserved ⟨[], [], false⟩ "u.webm" true (by decide)

/-- Claim C10: no preload operation shrinks the cache — the lone deletion (of
an errored entry at the start of a retry) is immediately followed by
re-insertion of the same URL — so cache size is monotonically non-decreasing;
and once the cache holds `maxPreloadCount` entries, every later preparation is
skipped outright and the cache stays untouched for the remainder of the
session, whatever warm or queue-pass operations follow. -/
theorem preload_cache_monotone_and_frozen (s : PreloadState) (url : String)
    (ok : Bool) (acts : List PreloadAction)
    (hnd : (mapKeys s.preloadedAudios).Nodup) :
    s.preloadedAudios.length ≤ (preloadAudio ok url s).1.preloadedAudios.length ∧
    s.preloadedAudios.length ≤ (processPreloadQueue ok s).preloadedAudios.length ∧
    (queuePreload url s).preloadedAudios = s.preloadedAudios ∧
    (maxPreloadCount ≤ s.preloadedAudios.length →
      preloadAudio ok url s = (s, false) ∧
      (runPreload acts s).preloadedAudios = s.preloadedAudios) :=
  ⟨preloadAudio_length_mono ok url s hnd,
   processPreloadQueue_length_mono ok s hnd,
   queuePreload_cache url s,
   fun hf => ⟨preloadAudio_full ok url s hf, runPreload_cache_frozen acts s hf⟩⟩

/-- Witness for C10 at a concrete full cache and a two-action session tail. -/
theorem preload_cache_monotone_and_frozen_witness :
    (⟨[("a.webm", ⟨true, false⟩), ("b.webm", ⟨true, false⟩),
        ("c.webm", ⟨true, false⟩)], [], false⟩ : PreloadState).preloadedAudios.length ≤
      (preloadAudio true "d.webm"
        ⟨[("a.webm", ⟨true, false⟩), ("b.webm", ⟨true, false⟩),
          ("c.webm", ⟨true, false⟩)], [], false⟩).1.preloadedAudios.length ∧
    (⟨[("a.webm", ⟨true, false⟩), ("b.webm", ⟨true, false⟩),
        ("c.webm", ⟨true, false⟩)], [], false⟩ : PreloadState).preloadedAudios.length ≤
      (processPreloadQueue true
        ⟨[("a.webm", ⟨true, false⟩), ("b.webm", ⟨true, false⟩),
          ("c.webm", ⟨true, false⟩)], [], false⟩).preloadedAudios.length ∧
    (queuePreload "d.webm"
        ⟨[("a.webm", ⟨true, false⟩), ("b.webm", ⟨true, false⟩),
          ("c.webm", ⟨true, false⟩)], [], false⟩).preloadedAudios =
      (⟨[("a.webm", ⟨true, false⟩), ("b.webm", ⟨true, false⟩),
          ("c.webm", ⟨true, false⟩)], [], false⟩ : PreloadState).preloadedAudios ∧
    (maxPreloadCount ≤
        (⟨[("a.webm", ⟨true, false⟩), ("b.webm", ⟨true, false⟩),
            ("c.webm", ⟨true, false⟩)], [], false⟩ : PreloadState).preloadedAudios.length →
      preloadAudio true "d.webm"
          ⟨[("a.webm", ⟨true, false⟩), ("b.webm", ⟨true, false⟩),
            ("c.webm", ⟨true, false⟩)], [], false⟩ =
        (⟨[("a.webm", ⟨true, false⟩), ("b.webm", ⟨true, false⟩),
            ("c.webm", ⟨true, false⟩)], [], false⟩, false) ∧
      (runPreload [.warm "d.webm", .pass true]
          ⟨[("a.webm", ⟨true, false⟩), ("b.webm", ⟨true, false⟩),
            ("c.webm", ⟨true, false⟩)], [], false⟩).preloadedAudios =
        (⟨[("a.webm", ⟨true, false⟩), ("b.webm", ⟨true, false⟩),
            ("c.webm", ⟨true, false⟩)], [], false⟩ : PreloadState).preloadedAudios) :=
  preload_cache_monotone_and_frozen
    ⟨[("a.webm", ⟨true, false⟩), ("b.webm", ⟨true, false⟩),
      ("c.webm", ⟨true, false⟩)], [], false⟩ "d.webm" true
    [.warm "d.webm", .pass true] (by decide)

/-- Claim C4, counterexample: with the cache already holding 3 entries, a warm
request for a new valid URL is not dropped outright — `queuePreload` appends it
to the preload queue, because the capacity check lives in `preloadAudio` and
fires only when the queue is later processed.  The request therefore does have
an effect on the queue. -/
theorem warm_at_capacity_enqueues :
    (queuePreload "d.webm"
        ⟨[("a.webm", ⟨true, false⟩), ("b.webm", ⟨true, false⟩),
          ("c.webm", ⟨true, false⟩)], [], false⟩).preloadQueue = ["d.webm"] := by
  decide

/-- Claim C4 as amended: when the cache already holds 3 entries, a warm request
for a new valid URL is enqueued rather than dropped, but it has no effect on
the cache: the next queue pass skips the preparation (capacity reached) and
removes the URL again, returning the subsystem to its prior state. -/
theorem warm_at_capacity_no_cache_effect (s : PreloadState) (url : String)
    (ok : Bool)
    (hfull : maxPreloadCount ≤ s.preloadedAudios.length)
    (hvalid : invalidPreloadUrl url = false)
    (hnc : mapHas s.preloadedAudios url = false)
    (hq : s.preloadQueue = [])
    (hbusy : s.isPreloading = false) :
    (queuePreload url s).preloadQueue = [url] ∧
    processPreloadQueue ok (queuePreload url s) = s := by
  obtain ⟨cache, queue, flag⟩ := s
  simp only at hfull hnc hq hbusy
  subst hq
  subst hbusy
  have hq1 : queuePreload url ⟨cache, [], false⟩ = ⟨cache, [url], false⟩ := by
    unfold queuePreload
    rw [if_neg (by simp [hvalid]), if_neg (by simp [hnc])]
    rfl
  rw [hq1]
  refine ⟨rfl, ?_⟩
  rw [processPreloadQueue_cons]
  have hfl := preloadAudio_full ok url ⟨cache, [url], true⟩ hfull
  simp [hfl]

/-- Witness for the amended C4 at a concrete full cache. -/
theorem warm_at_capacity_no_cache_effect_witness :
    (queuePreload "d.webm"
        ⟨[("a.webm", ⟨true, false⟩), ("b.webm", ⟨true, false⟩),
          ("c.webm", ⟨true, false⟩)], [], false⟩).preloadQueue = ["d.webm"] ∧
    processPreloadQueue true (queuePreload "d.webm"
        ⟨[("a.webm", ⟨true, false⟩), ("b.webm", ⟨true, false⟩),
          ("c.webm", ⟨true, false⟩)], [], false⟩) =
      ⟨[("a.webm", ⟨true, false⟩), ("b.webm", ⟨true, false⟩),
        ("c.webm", ⟨true, false⟩)], [], false⟩ :=
  warm_at_capacity_no_cache_effect
    ⟨[("a.webm", ⟨true, false⟩), ("b.webm", ⟨true, false⟩),
      ("c.webm", ⟨true, false⟩)], [], false⟩ "d.webm" true
    (by decide) (by decide) (by decide) rfl rfl

/-- Claim C3, counterexample: a persistently failing URL is not retried exactly
once.  Starting from an empty cache with `u.webm` queued, the first failing
pass re-queues it (the claimed single automatic retry); but after the second
failing pass — the retry itself failing — the URL is again re-queued for a
third attempt instead of being left errored off the queue. -/
theorem failed_preload_requeued_again :
    (processPreloadQueue false (processPreloadQueue false
        ⟨[], ["u.webm"], false⟩)).preloadQueue = ["u.webm"] ∧
    mapFind? (processPreloadQueue false (processPreloadQueue false
        ⟨[], ["u.webm"], false⟩)).preloadedAudios "u.webm" =
      some ⟨false, true⟩ := by
  refine ⟨by decide, by decide⟩

/-- Claim C3 as amended: every failing preparation of the queue head — the
first failure and every later one alike — leaves the cache entry errored and
moves the URL from the head to the tail of the queue; there is no per-URL retry
cap, so while the cache is below capacity a persistently failing URL is
re-queued on every pass. -/
theorem preload_failure_requeues_to_tail (s : PreloadState) (url : String)
    (rest : List String)
    (hq : s.preloadQueue = url :: rest)
    (hbusy : s.isPreloading = false)
    (hvalid : invalidPreloadUrl url = false)
    (hroom : s.preloadedAudios.length < maxPreloadCount)
    (herr : ∀ e, mapFind? s.preloadedAudios url = some e → e.error = true) :
    (processPreloadQueue false s).preloadQueue = rest ++ [url] ∧
    mapFind? (processPreloadQueue false s).preloadedAudios url =
      some ⟨false, true⟩ := by
  obtain ⟨cache, queue, flag⟩ := s
  simp only at hq hbusy hroom herr
  subst hq
  subst hbusy
  rw [processPreloadQueue_cons]
  have h := preloadAudio_fails url ⟨cache, url :: rest, true⟩ hvalid hroom herr
  refine ⟨?_, ?_⟩
  · show (if (preloadAudio false url ⟨cache, url :: rest, true⟩).2 then
        rest ++ [url] else rest) = rest ++ [url]
    rw [h.1]
    rfl
  · exact h.2.1

/-- Witness for the amended C3: the empty-cache single-URL state. -/
theorem preload_failure_requeues_to_tail_witness :
    (processPreloadQueue false ⟨[], ["u.webm"], false⟩).preloadQueue =
      [] ++ ["u.webm"] ∧
    mapFind? (processPreloadQueue false
        ⟨[], ["u.webm"], false⟩).preloadedAudios "u.webm" =
      some ⟨false, true⟩ :=
  preload_failure_requeues_to_tail ⟨[], ["u.webm"], false⟩ "u.webm" [] rfl rfl
    (by decide) (by decide) (by intro e he; simp [mapFind?] at he)

/-! ## Play-order generation (`generatePlayOrder`, claim C8) -/

/-- Embeds the destructuring swap `[order[i], order[j]] = [order[j], order[i]]`:
both right-hand sides are read from the original list, then written back. -/
def swapEntries (order : List Nat) (i j : Nat) : List Nat :=
  (order.set i (order.getD j 0)).set j (order.getD i 0)

/-- Embeds the `for` loop of `generatePlayOrder`, its loop variable counting
down to 1.  The draw `Math.floor(Math.random() * (i + 1))` is an arbitrary tape
value reduced modulo `i + 1`, exactly the draw's range. -/
def fisherYatesLoop (rand : Nat → Nat) (order : List Nat) : Nat → List Nat
  | 0 => order
  | i + 1 =>
    fisherYatesLoop rand (swapEntries order (i + 1) (rand (i + 1) % (i + 2))) i

/-- Embeds `generatePlayOrder`: `[0 .. length-1]` shuffled in place. -/
def generatePlayOrder (rand : Nat → Nat) (length : Nat) : List Nat :=
  fisherYatesLoop rand (List.range length) (length - 1)

theorem swapEntries_perm (l : List Nat) (i j : Nat) (hi : i < l.length)
    (hj : j < l.length) : (swapEntries l i j).Perm l := by
  apply List.perm_iff_count.mpr
  intro a
  have hgj : l.getD j 0 = l[j] := by
    rw [List.getD_eq_getElem?_getD, List.getElem?_eq_getElem hj]
    rfl
  have hgi : l.getD i 0 = l[i] := by
    rw [List.getD_eq_getElem?_getD, List.getElem?_eq_getElem hi]
    rfl
  unfold swapEntries
  rw [hgi, hgj]
  have hi1 : i < (l.set i l[j]).length := by
    rw [List.length_set]; exact hi
  have hj1 : j < (l.set i l[j]).length := by
    rw [List.length_set]; exact hj
  have hfixed : (l.set i l[j])[j] = l[j] := by
    by_cases hij : i = j
    · subst hij
      exact List.getElem_set_self hj1
    · exact List.getElem_set_ne hij hj1
  have c1 := List.count_set l[j] a l i hi
  have c2 := List.count_set l[i] a (l.set i l[j]) j hj1
  rw [hfixed] at c2
  rw [c2, c1]
  have hmi : l[i] ∈ l := List.getElem_mem hi
  have hmj : l[j] ∈ l := List.getElem_mem hj
  by_cases hia : l[i] = a <;> by_cases hja : l[j] = a
  · have hpos : 0 < l.count a := List.count_pos_iff.mpr (hia ▸ hmi)
    simp only [hia, hja, beq_self_eq_true, if_true]
    omega
  · have hpos : 0 < l.count a := List.count_pos_iff.mpr (hia ▸ hmi)
    simp [hia, hja]
    omega
  · have hpos : 0 < l.count a := List.count_pos_iff.mpr (hja ▸ hmj)
    simp [hia, hja]
  · simp [hia, hja]

theorem swapEntries_length (l : List Nat) (i j : Nat) :
    (swapEntries l i j).length = l.length := by
  simp [swapEntries, List.length_set]

theorem fisherYatesLoop_perm (rand : Nat → Nat) :
    ∀ (i : Nat) (l : List Nat), i < l.length → (fisherYatesLoop rand l i).Perm l := by
  intro i
  induction i with
  | zero => intro l _; exact List.Perm.refl l
  | succ i ih =>
    intro l hl
    have hj : rand (i + 1) % (i + 2) < l.length := by
      have := Nat.mod_lt (rand (i + 1)) (show 0 < i + 2 by omega)
      omega
    have hswap := swapEntries_perm l (i + 1) (rand (i + 1) % (i + 2)) hl hj
    have hlen := swapEntries_length l (i + 1) (rand (i + 1) % (i + 2))
    have hrec := ih (swapEntries l (i + 1) (rand (i + 1) % (i + 2)))
      (by rw [hlen]; omega)
    exact hrec.trans hswap

/-- Claim C8: for every length `n` and every random tape, the play order
produced by the shuffle is a permutation of `[0 .. n-1]`: it is a permutation
of `List.range n`, its length equals the track-list length, and every index
below `n` appears exactly once. -/
theorem generatePlayOrder_perm (rand : Nat → Nat) (n : Nat) :
    (generatePlayOrder rand n).Perm (List.range n) ∧
    (generatePlayOrder rand n).length = n ∧
    ∀ i, i < n → (generatePlayOrder rand n).count i = 1 := by
  have hperm : (generatePlayOrder rand n).Perm (List.range n) := by
    unfold generatePlayOrder
    cases n with
    | zero => exact List.Perm.refl _
    | succ m =>
      apply fisherYatesLoop_perm
      rw [List.length_range]
      omega
  refine ⟨hperm, ?_, ?_⟩
  · rw [hperm.length_eq, List.length_range]
  · intro i hi
    rw [hperm.count_eq]
    exact List.count_eq_one_of_mem (List.nodup_range n) (List.mem_range.mpr hi)

/-- Witness for C8 at the constant tape `1` and length `3`, including the
per-index count conjunct instantiated at index `1`. -/
theorem generatePlayOrder_perm_witness :
    (generatePlayOrder (fun _ => 1) 3).Perm (List.range 3) ∧
    (generatePlayOrder (fun _ => 1) 3).length = 3 ∧
    (1 < 3 ∧ (generatePlayOrder (fun _ => 1) 3).count 1 = 1) :=
  ⟨(generatePlayOrder_perm (fun _ => 1) 3).1,
   (generatePlayOrder_perm (fun _ => 1) 3).2.1,
   ⟨by decide, (generatePlayOrder_perm (fun _ => 1) 3).2.2 1 (by decide)⟩⟩

/-! ## Playback session retry policy (`AudioVisualizer.setupAudio`, claim C6)

One run of the setup effect is modelled by its retry skeleton.  The body of
`setupAudio` — element and source preparation, graph construction and the play
request — either succeeds, is denied pending a user gesture
(`NotAllowedError`, handled inline by registering a one-shot resume listener),
or fails; which of these happens on the k-th attempt is dictated by an
environment tape.  The source has TWO catch sites with different exhaustion
behaviour, sharing one `retryCount`:

* the INNER catch, around the context-resume and play request, handles a
  non-gesture play error: it re-enters `setupAudio` after `cleanupAudio()`
  while `retryCount < maxRetries`, but at exhaustion its `else if` simply
  falls through — NO `cleanupAudio()` runs, and the fully built session
  (element, stream, context, analyser, source) is left in place, merely idle;
* the OUTER catch, around the whole body, handles a thrown load or setup
  error: it re-enters likewise while the budget lasts, and at exhaustion runs
  `cleanupAudio()`, leaving the session torn down and idle.

Neither catch rethrows, so the call never propagates an exception. -/

inductive AttemptOutcome where
  | success
  | notAllowed
  | playFailure
  | loadFailure
deriving DecidableEq

inductive SessionEnd where
  | playing
  | awaitingGesture
  | builtIdle
  | toreDownIdle
deriving DecidableEq

def maxRetries : Nat := 3

/-- One pass of the outer `try` body, as seen by the two catch sites:
`success` and `notAllowed` complete the block; a non-gesture play-request
rejection is caught by the inner catch and never escapes the block (returned
as `.ok none`, for the inner handler to resolve); a load or setup error
throws out of the block to the outer catch (`.error`). -/
def attemptSetup : AttemptOutcome → Except String (Option SessionEnd)
  | .success => .ok (some .playing)
  | .notAllowed => .ok (some .awaitingGesture)
  | .playFailure => .ok none
  | .loadFailure => .error "load or setup error"

/-- Embeds the retry skeleton of `setupAudio` with both catch sites.  The
inner catch retries (after `cleanupAudio()`) while `retryCount < maxRetries`
and at exhaustion does nothing — the built session stays open, idle
(`builtIdle`).  The outer catch retries likewise and at exhaustion runs
`cleanupAudio()` (`toreDownIdle`).  Returns the session's end state paired
with the number of attempts performed; an `.error` result would mean a
rethrow reached the caller. -/
def setupAudioRetry (outcome : Nat → AttemptOutcome) (attempt retryCount : Nat) :
    Except String (SessionEnd × Nat) :=
  match attemptSetup (outcome attempt) with
  | .ok (some e) => .ok (e, 1)
  | .ok none =>
    if _h : retryCount < maxRetries then
      (setupAudioRetry outcome (attempt + 1) (retryCount + 1)).map
        (fun r => (r.1, r.2 + 1))
    else .ok (.builtIdle, 1)
  | .error _ =>
    if _h : retryCount < maxRetries then
      (setupAudioRetry outcome (attempt + 1) (retryCount + 1)).map
        (fun r => (r.1, r.2 + 1))
    else .ok (.toreDownIdle, 1)
termination_by maxRetries - retryCount

theorem setupAudioRetry_success_eq (outcome : Nat → AttemptOutcome)
    (attempt rc : Nat) (h : outcome attempt = .success) :
    setupAudioRetry outcome attempt rc = .ok (.playing, 1) := by
  unfold setupAudioRetry
  rw [h]
  rfl

theorem setupAudioRetry_gesture_eq (outcome : Nat → AttemptOutcome)
    (attempt rc : Nat) (h : outcome attempt = .notAllowed) :
    setupAudioRetry outcome attempt rc = .ok (.awaitingGesture, 1) := by
  unfold setupAudioRetry
  rw [h]
  rfl

theorem setupAudioRetry_play_eq (outcome : Nat → AttemptOutcome)
    (attempt rc : Nat) (h : outcome attempt = .playFailure) :
    setupAudioRetry outcome attempt rc =
      if _h : rc < maxRetries then
        (setupAudioRetry outcome (attempt + 1) (rc + 1)).map
          (fun r => (r.1, r.2 + 1))
      else .ok (.builtIdle, 1) := by
  conv_lhs => unfold setupAudioRetry
  rw [h]
  rfl

theorem setupAudioRetry_load_eq (outcome : Nat → AttemptOutcome)
    (attempt rc : Nat) (h : outcome attempt = .loadFailure) :
    setupAudioRetry outcome attempt rc =
      if _h : rc < maxRetries then
        (setupAudioRetry outcome (attempt + 1) (rc + 1)).map
          (fun r => (r.1, r.2 + 1))
      else .ok (.toreDownIdle, 1) := by
  conv_lhs => unfold setupAudioRetry
  rw [h]
  rfl

theorem setupAudioRetry_ok (outcome : Nat → AttemptOutcome) :
    ∀ (fuel attempt retryCount : Nat), maxRetries - retryCount = fuel →
      ∃ r, setupAudioRetry outcome attempt retryCount = .ok r ∧ r.2 ≤ fuel + 1 := by
  intro fuel
  induction fuel with
  | zero =>
    intro attempt rc hf
    cases ho : outcome attempt with
    | success =>
      exact ⟨(.playing, 1), setupAudioRetry_success_eq outcome attempt rc ho,
        by omega⟩
    | notAllowed =>
      exact ⟨(.awaitingGesture, 1),
        setupAudioRetry_gesture_eq outcome attempt rc ho, by omega⟩
    | playFailure =>
      rw [setupAudioRetry_play_eq outcome attempt rc ho, dif_neg (by omega)]
      exact ⟨(.builtIdle, 1), rfl, by omega⟩
    | loadFailure =>
      rw [setupAudioRetry_load_eq outcome attempt rc ho, dif_neg (by omega)]
      exact ⟨(.toreDownIdle, 1), rfl, by omega⟩
  | succ n ih =>
    intro attempt rc hf
    cases ho : outcome attempt with
    | success =>
      exact ⟨(.playing, 1), setupAudioRetry_success_eq outcome attempt rc ho,
        by omega⟩
    | notAllowed =>
      exact ⟨(.awaitingGesture, 1),
        setupAudioRetry_gesture_eq outcome attempt rc ho, by omega⟩
    | playFailure =>
      rw [setupAudioRetry_play_eq outcome attempt rc ho, dif_pos (by omega)]
      obtain ⟨r, hr, hb⟩ := ih (attempt + 1) (rc + 1) (by omega)
      rw [hr]
      exact ⟨(r.1, r.2 + 1), rfl, by omega⟩
    | loadFailure =>
      rw [setupAudioRetry_load_eq outcome attempt rc ho, dif_pos (by omega)]
      obtain ⟨r, hr, hb⟩ := ih (attempt + 1) (rc + 1) (by omega)
      rw [hr]
      exact ⟨(r.1, r.2 + 1), rfl, by omega⟩

theorem setupAudioRetry_all_load (outcome : Nat → AttemptOutcome)
    (hall : ∀ k, outcome k = .loadFailure) :
    ∀ (fuel attempt retryCount : Nat), maxRetries - retryCount = fuel →
      setupAudioRetry outcome attempt retryCount =
        .ok (.toreDownIdle, fuel + 1) := by
  intro fuel
  induction fuel with
  | zero =>
    intro attempt rc hf
    rw [setupAudioRetry_load_eq outcome attempt rc (hall attempt),
      dif_neg (by omega)]
  | succ n ih =>
    intro attempt rc hf
    rw [setupAudioRetry_load_eq outcome attempt rc (hall attempt),
      dif_pos (by omega), ih (attempt + 1) (rc + 1) (by omega)]
    rfl

theorem setupAudioRetry_all_play (outcome : Nat → AttemptOutcome)
    (hall : ∀ k, outcome k = .playFailure) :
    ∀ (fuel attempt retryCount : Nat), maxRetries - retryCount = fuel →
      setupAudioRetry outcome attempt retryCount =
        .ok (.builtIdle, fuel + 1) := by
  intro fuel
  induction fuel with
  | zero =>
    intro attempt rc hf
    rw [setupAudioRetry_play_eq outcome attempt rc (hall attempt),
      dif_neg (by omega)]
  | succ n ih =>
    intro attempt rc hf
    rw [setupAudioRetry_play_eq outcome attempt rc (hall attempt),
      dif_pos (by omega), ih (attempt + 1) (rc + 1) (by omega)]
    rfl

/-- Claim C6, counterexample: when it is the play attempt that keeps failing
with a non-gesture error, exhausting the retry budget does NOT leave the
session torn down.  The inner catch of `setupAudio` performs no
`cleanupAudio()` at exhaustion — its `else if retryCount < maxRetries` simply
falls through — so the run ends with the session still built (element, stream
and graph open) and merely idle, not in the torn-down state the claim
asserts for every failure kind it covers. -/
theorem setup_retry_play_exhaustion_not_torn_down :
    setupAudioRetry (fun _ => .playFailure) 0 0
      = .ok (.builtIdle, maxRetries + 1) ∧
    SessionEnd.builtIdle ≠ SessionEnd.toreDownIdle :=
  ⟨setupAudioRetry_all_play (fun _ => .playFailure) (fun _ => rfl)
      maxRetries 0 0 rfl,
   by decide⟩

/-- Claim C6 as amended: for failures other than the user-gesture denial, the
full acquisition is retried at most `maxRetries` (3) times — at most 4
attempts in total, each retry preceded by `cleanupAudio()` — and no exception
ever propagates to the caller; but the state after the budget is exhausted
depends on which catch sees the final failure: a persistent acquisition/load
error ends in the outer catch, which runs `cleanupAudio()` — torn down and
idle — while a persistent play-attempt error ends in the inner catch, which
performs no teardown at exhaustion and leaves the built session idle with its
graph still open. -/
theorem setup_retry_bounded_split_teardown (outcome : Nat → AttemptOutcome) :
    (∃ r, setupAudioRetry outcome 0 0 = .ok r ∧ r.2 ≤ maxRetries + 1) ∧
    ((∀ k, outcome k = .loadFailure) →
      setupAudioRetry outcome 0 0 = .ok (.toreDownIdle, maxRetries + 1)) ∧
    ((∀ k, outcome k = .playFailure) →
      setupAudioRetry outcome 0 0 = .ok (.builtIdle, maxRetries + 1)) := by
  refine ⟨?_, ?_, ?_⟩
  · exact setupAudioRetry_ok outcome maxRetries 0 0 rfl
  · intro hall
    exact setupAudioRetry_all_load outcome hall maxRetries 0 0 rfl
  · intro hall
    exact setupAudioRetry_all_play outcome hall maxRetries 0 0 rfl

/-- Witness for the amended C6 at the always-load-failing and
always-play-failing tapes. -/
theorem setup_retry_bounded_split_teardown_witness :
    (∃ r, setupAudioRetry (fun _ => .loadFailure) 0 0 = .ok r ∧
      r.2 ≤ maxRetries + 1) ∧
    setupAudioRetry (fun _ => .loadFailure) 0 0 =
      .ok (.toreDownIdle, maxRetries + 1) ∧
    setupAudioRetry (fun _ => .playFailure) 0 0 =
      .ok (.builtIdle, maxRetries + 1) :=
  ⟨(setup_retry_bounded_split_teardown (fun _ => .loadFailure)).1,
   (setup_retry_bounded_split_teardown (fun _ => .loadFailure)).2.1
     (fun _ => rfl),
   (setup_retry_bounded_split_teardown (fun _ => .playFailure)).2.2
     (fun _ => rfl)⟩

/-! ## Playback session lifecycle (`AudioVisualizer`, claim C1)

The setup effect, its cleanup and the track-change flow are modelled as a
small-step system over the JS event loop: code between two suspension points
runs atomically, and an `await`'s continuation is delivered by an environment
event.  Each run of the effect is a generation carrying the `isCurrentSetup`
flag captured by its closure (`cancelled` is its negation).  The tracked
resources are the media stream, opened when the effect body assigns
`audio.src` before its first `await`, and the audio graph — context, analyser
and source node, wired after the buffering awaits.  `cleanupAudio` closes both.
The guards mirror the source: every promise executor and every resolution
handler checks `isCurrentSetup` and otherwise neither resolves nor performs
effects, so a superseded generation halts at its next delivery; the catch
blocks also check the flag before their retry or teardown. -/

inductive SetupPc where
  | awaitMetadata
  | awaitBuffer
  | awaitPlay
  | playingDone
  | halted
deriving DecidableEq

structure Generation where
  url : String
  cancelled : Bool
  pc : SetupPc
deriving DecidableEq

/-- Generations (index = id, the last one current), plus the open media
streams and open audio graphs, each tagged with owner id and track URL. -/
structure VisState where
  gens : List Generation
  streams : List (Nat × String)
  graphs : List (Nat × String)
deriving DecidableEq

inductive VisEvent where
  | changeTrack (url : String)
  | metadataReady (g : Nat)
  | bufferReady (g : Nat)
  | playSettled (g : Nat)
  | loadError (g : Nat) (budgetLeft : Bool)
  | unmount
deriving DecidableEq

def cancelGen (g : Generation) : Generation := { g with cancelled := true }

/-- `cleanupAudio`: release the given generation's stream and graph. -/
def closeResources (gid : Nat) (s : VisState) : VisState :=
  { s with streams := s.streams.filter (fun r => r.1 != gid),
           graphs := s.graphs.filter (fun r => r.1 != gid) }

/-- The effect body up to its first `await`: create the element, assign `src`
(opening the network stream) and suspend on the metadata promise. -/
def startGen (url : String) (s : VisState) : VisState :=
  { gens := s.gens ++ [⟨url, false, .awaitMetadata⟩],
    streams := s.streams ++ [(s.gens.length, url)],
    graphs := s.graphs }

def visStep (e : VisEvent) (s : VisState) : VisState :=
  match e with
  | .changeTrack url =>
    -- React cleanup of the previous run (`isCurrentSetup = false` and
    -- `cleanupAudio()`), then the new effect body up to its first await.
    startGen url
      { closeResources (s.gens.length - 1) s with gens := s.gens.map cancelGen }
  | .unmount =>
    { closeResources (s.gens.length - 1) s with gens := s.gens.map cancelGen }
  | .metadataReady g =>
    -- `loadedmetadata` fires: the handler returns unless `isCurrentSetup`.
    match s.gens[g]? with
    | some gen =>
      if gen.pc = .awaitMetadata then
        if gen.cancelled then
          { s with gens := s.gens.set g { gen with pc := .halted } }
        else { s with gens := s.gens.set g { gen with pc := .awaitBuffer } }
      else s
    | none => s
  | .bufferReady g =>
    -- `canplaythrough` fires; the delivered continuation builds the graph.
    match s.gens[g]? with
    | some gen =>
      if gen.pc = .awaitBuffer then
        if gen.cancelled then
          { s with gens := s.gens.set g { gen with pc := .halted } }
        else
          { s with gens := s.gens.set g { gen with pc := .awaitPlay },
                   graphs := s.graphs ++ [(g, gen.url)] }
      else s
    | none => s
  | .playSettled g =>
    -- the context resume and play request settle.
    match s.gens[g]? with
    | some gen =>
      if gen.pc = .awaitPlay then
        if gen.cancelled then
          { s with gens := s.gens.set g { gen with pc := .halted } }
        else { s with gens := s.gens.set g { gen with pc := .playingDone } }
      else s
    | none => s
  | .loadError g budgetLeft =>
    -- an error event fires at any suspension; the catch checks the flag,
    -- then either retries (`cleanupAudio()` + re-enter, while budget lasts)
    -- or tears down for good.
    match s.gens[g]? with
    | some gen =>
      if gen.pc = .awaitMetadata ∨ gen.pc = .awaitBuffer ∨ gen.pc = .awaitPlay then
        if gen.cancelled then
          { s with gens := s.gens.set g { gen with pc := .halted } }
        else if budgetLeft then
          { closeResources g s with
              gens := s.gens.set g { gen with pc := .awaitMetadata },
              streams :=
                (closeResources g s).streams ++ [(g, gen.url)] }
        else
          { closeResources g s with
              gens := s.gens.set g { gen with pc := .halted } }
      else s
    | none => s

def visInit : VisState := ⟨[], [], []⟩

def visRun (evs : List VisEvent) : VisState :=
  evs.foldl (fun s e => visStep e s) visInit

/-- Resources a (current, live) generation may hold at each of its suspension
points: its stream from the start, its graph only once buffering completed. -/
def genResOk (gid : Nat) (gen : Generation) (s : VisState) : Prop :=
  match gen.pc with
  | .awaitMetadata => s.streams = [(gid, gen.url)] ∧ s.graphs = []
  | .awaitBuffer => s.streams = [(gid, gen.url)] ∧ s.graphs = []
  | .awaitPlay => s.streams = [(gid, gen.url)] ∧ s.graphs = [(gid, gen.url)]
  | .playingDone => s.streams = [(gid, gen.url)] ∧ s.graphs = [(gid, gen.url)]
  | .halted => s.streams = [] ∧ s.graphs = []

/-- System invariant: all but the last generation are cancelled, and the open
resources are exactly those the last generation's stage allows (none if it is
cancelled or there is no generation). -/
def visInv (s : VisState) : Prop :=
  (∀ i, i + 1 < s.gens.length →
    ∀ gen, s.gens[i]? = some gen → gen.cancelled = true) ∧
  (match s.gens.getLast? with
   | none => s.streams = [] ∧ s.graphs = []
   | some gen =>
     if gen.cancelled = true then s.streams = [] ∧ s.graphs = []
     else genResOk (s.gens.length - 1) gen s)

/-! ### Helper lemmas for the session invariant -/

theorem closeCurrent_empty (s : VisState) (h : visInv s) :
    (closeResources (s.gens.length - 1) s).streams = [] ∧
    (closeResources (s.gens.length - 1) s).graphs = [] := by
  obtain ⟨hprev, hlast⟩ := h
  cases hl : s.gens.getLast? with
  | none =>
    simp only [hl] at hlast
    simp only [closeResources]
    rw [hlast.1, hlast.2]
    exact ⟨rfl, rfl⟩
  | some gen =>
    simp only [hl] at hlast
    by_cases hc : gen.cancelled = true
    · rw [if_pos hc] at hlast
      simp only [closeResources]
      rw [hlast.1, hlast.2]
      exact ⟨rfl, rfl⟩
    · rw [if_neg hc] at hlast
      simp only [closeResources]
      cases hpc : gen.pc <;>
        simp only [genResOk, hpc] at hlast <;>
        rw [hlast.1, hlast.2] <;>
        simp [List.filter_cons]

theorem prevCancelled_set (gens : List Generation) (g : Nat) (gen gen' : Generation)
    (hg : gens[g]? = some gen) (hcc : gen'.cancelled = gen.cancelled)
    (hprev : ∀ i, i + 1 < gens.length → ∀ x, gens[i]? = some x →
      x.cancelled = true) :
    ∀ i, i + 1 < (gens.set g gen').length →
      ∀ x, (gens.set g gen')[i]? = some x → x.cancelled = true := by
  intro i hi x hx
  rw [List.length_set] at hi
  by_cases hig : g = i
  · subst hig
    obtain ⟨hlt, _⟩ := List.getElem?_eq_some_iff.mp hg
    rw [List.getElem?_set_self hlt] at hx
    cases hx
    rw [hcc]
    exact hprev g hi gen hg
  · rw [List.getElem?_set_ne hig] at hx
    exact hprev i hi x hx

theorem getLast?_set_last (l : List Generation) (x : Generation) (h : l ≠ []) :
    (l.set (l.length - 1) x).getLast? = some x := by
  rw [List.getLast?_eq_getElem?, List.length_set]
  have hlt : l.length - 1 < l.length := by
    cases l with
    | nil => exact absurd rfl h
    | cons a t => simp
  rw [List.getElem?_set_self hlt]

theorem getLast?_set_ne_last (l : List Generation) (g : Nat) (x : Generation)
    (h : g ≠ l.length - 1) : (l.set g x).getLast? = l.getLast? := by
  rw [List.getLast?_eq_getElem?, List.getLast?_eq_getElem?, List.length_set]
  exact List.getElem?_set_ne h

theorem current_is_last (s : VisState) (g : Nat) (gen : Generation)
    (hg : s.gens[g]? = some gen) (hc : gen.cancelled = false)
    (hprev : ∀ i, i + 1 < s.gens.length → ∀ x, s.gens[i]? = some x →
      x.cancelled = true) :
    g = s.gens.length - 1 ∧ s.gens.getLast? = some gen := by
  obtain ⟨hlt, _⟩ := List.getElem?_eq_some_iff.mp hg
  have hglast : g = s.gens.length - 1 := by
    by_contra hne
    have hi : g + 1 < s.gens.length := by omega
    have := hprev g hi gen hg
    rw [hc] at this
    exact Bool.noConfusion this
  refine ⟨hglast, ?_⟩
  rw [List.getLast?_eq_getElem?, ← hglast]
  exact hg

theorem visInv_set_halted (s : VisState) (g : Nat) (gen : Generation)
    (pc' : SetupPc) (hg : s.gens[g]? = some gen) (hc : gen.cancelled = true)
    (h : visInv s) :
    visInv { s with gens := s.gens.set g { gen with pc := pc' } } := by
  obtain ⟨hprev, hlast⟩ := h
  refine ⟨prevCancelled_set s.gens g gen _ hg rfl hprev, ?_⟩
  by_cases hgl : g = s.gens.length - 1
  · subst hgl
    have hne : s.gens ≠ [] := by
      intro hnil
      rw [hnil] at hg
      exact Option.noConfusion hg
    have hl2 := getLast?_set_last s.gens { gen with pc := pc' } hne
    simp only [hl2]
    rw [if_pos (show ({ gen with pc := pc' } : Generation).cancelled = true from hc)]
    have hlg : s.gens.getLast? = some gen := by
      rw [List.getLast?_eq_getElem?]
      exact hg
    simp only [hlg] at hlast
    rw [if_pos hc] at hlast
    exact hlast
  · have hl2 := getLast?_set_ne_last s.gens g { gen with pc := pc' } hgl
    simp only [hl2, List.length_set]
    exact hlast

theorem visInv_init : visInv visInit := by
  refine ⟨fun i hi x hx => ?_, ⟨rfl, rfl⟩⟩
  simp [visInit] at hi

theorem filter_ne_self (g : Nat) (u : String) :
    List.filter (fun r => r.1 != g) [(g, u)] = [] := by simp

theorem visStep_inv (e : VisEvent) (s : VisState) (h : visInv s) :
    visInv (visStep e s) := by
  obtain ⟨hprev, hlast⟩ := h
  cases e with
  | changeTrack url =>
    have hempty := closeCurrent_empty s ⟨hprev, hlast⟩
    have hgens : (visStep (.changeTrack url) s).gens
        = s.gens.map cancelGen ++ [⟨url, false, .awaitMetadata⟩] := rfl
    have hlen : (visStep (.changeTrack url) s).gens.length = s.gens.length + 1 := by
      rw [hgens, List.length_append, List.length_map]
      rfl
    have hstreams : (visStep (.changeTrack url) s).streams
        = [(s.gens.length, url)] := by
      show (closeResources (s.gens.length - 1) s).streams
          ++ [((s.gens.map cancelGen).length, url)] = [(s.gens.length, url)]
      rw [hempty.1, List.length_map, List.nil_append]
    have hgraphs : (visStep (.changeTrack url) s).graphs = [] := hempty.2
    refine ⟨?_, ?_⟩
    · intro i hi x hx
      rw [hgens] at hx
      rw [hlen] at hi
      have hilt : i < s.gens.length := by omega
      rw [List.getElem?_append_left (by rw [List.length_map]; exact hilt),
        List.getElem?_map] at hx
      cases hgi : s.gens[i]? with
      | none =>
        rw [hgi] at hx
        exact Option.noConfusion hx
      | some y =>
        rw [hgi] at hx
        have hxy : cancelGen y = x := Option.some.inj hx
        rw [← hxy]
        rfl
    · have hl' : (visStep (.changeTrack url) s).gens.getLast?
          = some ⟨url, false, .awaitMetadata⟩ := by
        rw [hgens]
        exact List.getLast?_concat _
      simp only [hl']
      rw [if_neg (by simp)]
      show (visStep (.changeTrack url) s).streams
          = [((visStep (.changeTrack url) s).gens.length - 1, url)] ∧
        (visStep (.changeTrack url) s).graphs = []
      rw [hstreams, hgraphs, hlen]
      simp
  | unmount =>
    have hempty := closeCurrent_empty s ⟨hprev, hlast⟩
    have hgens : (visStep .unmount s).gens = s.gens.map cancelGen := rfl
    refine ⟨?_, ?_⟩
    · intro i hi x hx
      rw [hgens, List.getElem?_map] at hx
      cases hgi : s.gens[i]? with
      | none =>
        rw [hgi] at hx
        exact Option.noConfusion hx
      | some y =>
        rw [hgi] at hx
        have hxy : cancelGen y = x := Option.some.inj hx
        rw [← hxy]
        rfl
    · have hmap : (s.gens.map cancelGen).getLast?
          = (s.gens.getLast?).map cancelGen := by
        rw [List.getLast?_eq_getElem?, List.getLast?_eq_getElem?,
          List.getElem?_map, List.length_map]
      show (match ((visStep .unmount s).gens).getLast? with
        | none => (visStep .unmount s).streams = [] ∧ (visStep .unmount s).graphs = []
        | some gen =>
          if gen.cancelled = true then
            (visStep .unmount s).streams = [] ∧ (visStep .unmount s).graphs = []
          else genResOk ((visStep .unmount s).gens.length - 1) gen
            (visStep .unmount s))
      rw [hgens, hmap]
      cases hgl : s.gens.getLast? with
      | none => exact ⟨hempty.1, hempty.2⟩
      | some gen => exact ⟨hempty.1, hempty.2⟩
  | metadataReady g =>
    cases hg : s.gens[g]? with
    | none =>
      have hs : visStep (.metadataReady g) s = s := by simp [visStep, hg]
      rw [hs]
      exact ⟨hprev, hlast⟩
    | some gen =>
      by_cases hpc : gen.pc = .awaitMetadata
      · by_cases hc : gen.cancelled = true
        · have hs : visStep (.metadataReady g) s
              = { s with gens := s.gens.set g { gen with pc := .halted } } := by
            simp [visStep, hg, hpc, hc]
          rw [hs]
          exact visInv_set_halted s g gen .halted hg hc ⟨hprev, hlast⟩
        · have hcf : gen.cancelled = false := by
            cases hcc : gen.cancelled
            · rfl
            · exact absurd hcc hc
          have hs : visStep (.metadataReady g) s
              = { s with gens := s.gens.set g { gen with pc := .awaitBuffer } } := by
            simp [visStep, hg, hpc, hc]
          rw [hs]
          obtain ⟨hgl, hlg⟩ := current_is_last s g gen hg hcf hprev
          subst hgl
          simp only [hlg] at hlast
          rw [if_neg hc] at hlast
          simp only [genResOk, hpc] at hlast
          refine ⟨prevCancelled_set s.gens _ gen _ hg rfl hprev, ?_⟩
          have hne : s.gens ≠ [] := by
            intro hnil
            rw [hnil] at hg
            exact Option.noConfusion hg
          have hl2 := getLast?_set_last s.gens { gen with pc := .awaitBuffer } hne
          simp only [hl2]
          rw [if_neg hc]
          simp only [genResOk, List.length_set]
          exact hlast
      · have hs : visStep (.metadataReady g) s = s := by simp [visStep, hg, hpc]
        rw [hs]
        exact ⟨hprev, hlast⟩
  | bufferReady g =>
    cases hg : s.gens[g]? with
    | none =>
      have hs : visStep (.bufferReady g) s = s := by simp [visStep, hg]
      rw [hs]
      exact ⟨hprev, hlast⟩
    | some gen =>
      by_cases hpc : gen.pc = .awaitBuffer
      · by_cases hc : gen.cancelled = true
        · have hs : visStep (.bufferReady g) s
              = { s with gens := s.gens.set g { gen with pc := .halted } } := by
            simp [visStep, hg, hpc, hc]
          rw [hs]
          exact visInv_set_halted s g gen .halted hg hc ⟨hprev, hlast⟩
        · have hcf : gen.cancelled = false := by
            cases hcc : gen.cancelled
            · rfl
            · exact absurd hcc hc
          have hs : visStep (.bufferReady g) s
              = { s with
                  gens := s.gens.set g { gen with pc := .awaitPlay },
                  graphs := s.graphs ++ [(g, gen.url)] } := by
            simp [visStep, hg, hpc, hc]
          rw [hs]
          obtain ⟨hgl, hlg⟩ := current_is_last s g gen hg hcf hprev
          subst hgl
          simp only [hlg] at hlast
          rw [if_neg hc] at hlast
          simp only [genResOk, hpc] at hlast
          refine ⟨prevCancelled_set s.gens _ gen _ hg rfl hprev, ?_⟩
          have hne : s.gens ≠ [] := by
            intro hnil
            rw [hnil] at hg
            exact Option.noConfusion hg
          have hl2 := getLast?_set_last s.gens { gen with pc := .awaitPlay } hne
          simp only [hl2]
          rw [if_neg hc]
          simp only [genResOk, List.length_set]
          refine ⟨hlast.1, ?_⟩
          show s.graphs ++ [(s.gens.length - 1, gen.url)]
              = [(s.gens.length - 1, gen.url)]
          rw [hlast.2, List.nil_append]
      · have hs : visStep (.bufferReady g) s = s := by simp [visStep, hg, hpc]
        rw [hs]
        exact ⟨hprev, hlast⟩
  | playSettled g =>
    cases hg : s.gens[g]? with
    | none =>
      have hs : visStep (.playSettled g) s = s := by simp [visStep, hg]
      rw [hs]
      exact ⟨hprev, hlast⟩
    | some gen =>
      by_cases hpc : gen.pc = .awaitPlay
      · by_cases hc : gen.cancelled = true
        · have hs : visStep (.playSettled g) s
              = { s with gens := s.gens.set g { gen with pc := .halted } } := by
            simp [visStep, hg, hpc, hc]
          rw [hs]
          exact visInv_set_halted s g gen .halted hg hc ⟨hprev, hlast⟩
        · have hcf : gen.cancelled = false := by
            cases hcc : gen.cancelled
            · rfl
            · exact absurd hcc hc
          have hs : visStep (.playSettled g) s
              = { s with gens := s.gens.set g { gen with pc := .playingDone } } := by
            simp [visStep, hg, hpc, hc]
          rw [hs]
          obtain ⟨hgl, hlg⟩ := current_is_last s g gen hg hcf hprev
          subst hgl
          simp only [hlg] at hlast
          rw [if_neg hc] at hlast
          simp only [genResOk, hpc] at hlast
          refine ⟨prevCancelled_set s.gens _ gen _ hg rfl hprev, ?_⟩
          have hne : s.gens ≠ [] := by
            intro hnil
            rw [hnil] at hg
            exact Option.noConfusion hg
          have hl2 := getLast?_set_last s.gens { gen with pc := .playingDone } hne
          simp only [hl2]
          rw [if_neg hc]
          simp only [genResOk, List.length_set]
          exact hlast
      · have hs : visStep (.playSettled g) s = s := by simp [visStep, hg, hpc]
        rw [hs]
        exact ⟨hprev, hlast⟩
  | loadError g b =>
    cases hg : s.gens[g]? with
    | none =>
      have hs : visStep (.loadError g b) s = s := by simp [visStep, hg]
      rw [hs]
      exact ⟨hprev, hlast⟩
    | some gen =>
      by_cases hpc : gen.pc = .awaitMetadata ∨ gen.pc = .awaitBuffer ∨
        gen.pc = .awaitPlay
      · by_cases hc : gen.cancelled = true
        · have hs : visStep (.loadError g b) s
              = { s with gens := s.gens.set g { gen with pc := .halted } } := by
            simp [visStep, hg, hpc, hc]
          rw [hs]
          exact visInv_set_halted s g gen .halted hg hc ⟨hprev, hlast⟩
        · have hcf : gen.cancelled = false := by
            cases hcc : gen.cancelled
            · rfl
            · exact absurd hcc hc
          obtain ⟨hgl, hlg⟩ := current_is_last s g gen hg hcf hprev
          subst hgl
          simp only [hlg] at hlast
          rw [if_neg hc] at hlast
          have hne : s.gens ≠ [] := by
            intro hnil
            rw [hnil] at hg
            exact Option.noConfusion hg
          have hstr : (closeResources (s.gens.length - 1) s).streams = [] := by
            show s.streams.filter (fun r => r.1 != s.gens.length - 1) = []
            rcases hpc with hpc | hpc | hpc <;>
              simp only [genResOk, hpc] at hlast <;>
              rw [hlast.1] <;>
              exact filter_ne_self _ _
          have hgra : (closeResources (s.gens.length - 1) s).graphs = [] := by
            show s.graphs.filter (fun r => r.1 != s.gens.length - 1) = []
            rcases hpc with hpc | hpc | hpc <;>
              simp only [genResOk, hpc] at hlast <;>
              rw [hlast.2]
            · rfl
            · rfl
            · exact filter_ne_self _ _
          cases b with
          | true =>
            have hs : visStep (.loadError (s.gens.length - 1) true) s
                = { closeResources (s.gens.length - 1) s with
                    gens :=
                      s.gens.set (s.gens.length - 1) { gen with pc := .awaitMetadata },
                    streams :=
                      (closeResources (s.gens.length - 1) s).streams
                        ++ [(s.gens.length - 1, gen.url)] } := by
              simp [visStep, hg, hpc, hc]
            rw [hs]
            refine ⟨prevCancelled_set s.gens _ gen _ hg rfl hprev, ?_⟩
            have hl2 := getLast?_set_last s.gens { gen with pc := .awaitMetadata } hne
            simp only [hl2]
            rw [if_neg hc]
            simp only [genResOk, List.length_set]
            refine ⟨?_, hgra⟩
            show (closeResources (s.gens.length - 1) s).streams
                ++ [(s.gens.length - 1, gen.url)]
                = [(s.gens.length - 1, gen.url)]
            rw [hstr, List.nil_append]
          | false =>
            have hs : visStep (.loadError (s.gens.length - 1) false) s
                = { closeResources (s.gens.length - 1) s with
                    gens := s.gens.set (s.gens.length - 1)
                      { gen with pc := .halted } } := by
              simp [visStep, hg, hpc, hc]
            rw [hs]
            refine ⟨prevCancelled_set s.gens _ gen _ hg rfl hprev, ?_⟩
            have hl2 := getLast?_set_last s.gens { gen with pc := .halted } hne
            simp only [hl2]
            rw [if_neg hc]
            simp only [genResOk, List.length_set]
            exact ⟨hstr, hgra⟩
      · have hs : visStep (.loadError g b) s = s := by simp [visStep, hg, hpc]
        rw [hs]
        exact ⟨hprev, hlast⟩

theorem visInv_res_bound (s : VisState) (h : visInv s) :
    s.streams.length ≤ 1 ∧ s.graphs.length ≤ 1 := by
  obtain ⟨hprev, hlast⟩ := h
  cases hl : s.gens.getLast? with
  | none =>
    simp only [hl] at hlast
    rw [hlast.1, hlast.2]
    exact ⟨by simp, by simp⟩
  | some gen =>
    simp only [hl] at hlast
    by_cases hc : gen.cancelled = true
    · rw [if_pos hc] at hlast
      rw [hlast.1, hlast.2]
      exact ⟨by simp, by simp⟩
    · rw [if_neg hc] at hlast
      cases hpc : gen.pc <;>
        simp only [genResOk, hpc] at hlast <;>
        rw [hlast.1, hlast.2] <;>
        exact ⟨by simp, by simp⟩

theorem visRun_inv (evs : List VisEvent) : visInv (visRun evs) := by
  have hgen : ∀ (l : List VisEvent) (s : VisState), visInv s →
      visInv (l.foldl (fun t e => visStep e t) s) := by
    intro l
    induction l with
    | nil => intro s hs; exact hs
    | cons e rest ih =>
      intro s hs
      exact ih (visStep e s) (visStep_inv e s hs)
  exact hgen evs visInit visInv_init

theorem visStep_cancelled_frame (s : VisState) (g : Nat) (gen : Generation)
    (b : Bool) (hg : s.gens[g]? = some gen) (hc : gen.cancelled = true) :
    (visStep (.metadataReady g) s).streams = s.streams ∧
    (visStep (.metadataReady g) s).graphs = s.graphs ∧
    (visStep (.bufferReady g) s).streams = s.streams ∧
    (visStep (.bufferReady g) s).graphs = s.graphs ∧
    (visStep (.playSettled g) s).streams = s.streams ∧
    (visStep (.playSettled g) s).graphs = s.graphs ∧
    (visStep (.loadError g b) s).streams = s.streams ∧
    (visStep (.loadError g b) s).graphs = s.graphs := by
  have hmeta : (visStep (.metadataReady g) s).streams = s.streams ∧
      (visStep (.metadataReady g) s).graphs = s.graphs := by
    by_cases hpc : gen.pc = .awaitMetadata
    · have hs : visStep (.metadataReady g) s
          = { s with gens := s.gens.set g { gen with pc := .halted } } := by
        simp [visStep, hg, hpc, hc]
      rw [hs]
      exact ⟨rfl, rfl⟩
    · have hs : visStep (.metadataReady g) s = s := by simp [visStep, hg, hpc]
      rw [hs]
      exact ⟨rfl, rfl⟩
  have hbuf : (visStep (.bufferReady g) s).streams = s.streams ∧
      (visStep (.bufferReady g) s).graphs = s.graphs := by
    by_cases hpc : gen.pc = .awaitBuffer
    · have hs : visStep (.bufferReady g) s
          = { s with gens := s.gens.set g { gen with pc := .halted } } := by
        simp [visStep, hg, hpc, hc]
      rw [hs]
      exact ⟨rfl, rfl⟩
    · have hs : visStep (.bufferReady g) s = s := by simp [visStep, hg, hpc]
      rw [hs]
      exact ⟨rfl, rfl⟩
  have hplay : (visStep (.playSettled g) s).streams = s.streams ∧
      (visStep (.playSettled g) s).graphs = s.graphs := by
    by_cases hpc : gen.pc = .awaitPlay
    · have hs : visStep (.playSettled g) s
          = { s with gens := s.gens.set g { gen with pc := .halted } } := by
        simp [visStep, hg, hpc, hc]
      rw [hs]
      exact ⟨rfl, rfl⟩
    · have hs : visStep (.playSettled g) s = s := by simp [visStep, hg, hpc]
      rw [hs]
      exact ⟨rfl, rfl⟩
  have herr : (visStep (.loadError g b) s).streams = s.streams ∧
      (visStep (.loadError g b) s).graphs = s.graphs := by
    by_cases hpc : gen.pc = .awaitMetadata ∨ gen.pc = .awaitBuffer ∨
      gen.pc = .awaitPlay
    · have hs : visStep (.loadError g b) s
          = { s with gens := s.gens.set g { gen with pc := .halted } } := by
        simp [visStep, hg, hpc, hc]
      rw [hs]
      exact ⟨rfl, rfl⟩
    · have hs : visStep (.loadError g b) s = s := by simp [visStep, hg, hpc]
      rw [hs]
      exact ⟨rfl, rfl⟩
  exact ⟨hmeta.1, hmeta.2, hbuf.1, hbuf.2, hplay.1, hplay.2, herr.1, herr.2⟩

theorem visStep_meta_live (s : VisState) (g : Nat) (gen : Generation)
    (hg : s.gens[g]? = some gen) (hpc : gen.pc = .awaitMetadata)
    (hc : gen.cancelled = false) :
    visStep (.metadataReady g) s
      = { s with gens := s.gens.set g { gen with pc := .awaitBuffer } } := by
  simp [visStep, hg, hpc, hc]

theorem visStep_buffer_live (s : VisState) (g : Nat) (gen : Generation)
    (hg : s.gens[g]? = some gen) (hpc : gen.pc = .awaitBuffer)
    (hc : gen.cancelled = false) :
    visStep (.bufferReady g) s
      = { s with
          gens := s.gens.set g { gen with pc := .awaitPlay },
          graphs := s.graphs ++ [(g, gen.url)] } := by
  simp [visStep, hg, hpc, hc]

theorem changeTrack_shape (v : String) (s : VisState) (hs : visInv s) :
    (visStep (.changeTrack v) s).gens.length = s.gens.length + 1 ∧
    (visStep (.changeTrack v) s).gens.getLast?
      = some ⟨v, false, .awaitMetadata⟩ ∧
    (visStep (.changeTrack v) s).streams = [(s.gens.length, v)] ∧
    (visStep (.changeTrack v) s).graphs = [] ∧
    visInv (visStep (.changeTrack v) s) := by
  have hempty := closeCurrent_empty s hs
  refine ⟨?_, ?_, ?_, hempty.2, visStep_inv (.changeTrack v) s hs⟩
  · show (s.gens.map cancelGen
        ++ [(⟨v, false, .awaitMetadata⟩ : Generation)]).length
        = s.gens.length + 1
    rw [List.length_append, List.length_map]
    rfl
  · show (s.gens.map cancelGen
        ++ [(⟨v, false, .awaitMetadata⟩ : Generation)]).getLast? = _
    exact List.getLast?_concat _
  · show (closeResources (s.gens.length - 1) s).streams
        ++ [((s.gens.map cancelGen).length, v)] = [(s.gens.length, v)]
    rw [hempty.1, List.length_map, List.nil_append]

theorem switch_chain (urls : List String) :
    ∀ (s : VisState), visInv s → ∀ u, urls.getLast? = some u →
      (urls.foldl (fun t v => visStep (.changeTrack v) t) s).gens.length
        = s.gens.length + urls.length ∧
      (urls.foldl (fun t v => visStep (.changeTrack v) t) s).gens.getLast?
        = some ⟨u, false, .awaitMetadata⟩ ∧
      (urls.foldl (fun t v => visStep (.changeTrack v) t) s).streams
        = [((urls.foldl (fun t v => visStep (.changeTrack v) t) s).gens.length
            - 1, u)] ∧
      (urls.foldl (fun t v => visStep (.changeTrack v) t) s).graphs = [] ∧
      visInv (urls.foldl (fun t v => visStep (.changeTrack v) t) s) := by
  induction urls with
  | nil =>
    intro s hs u hu
    exact absurd hu (by simp)
  | cons v rest ih =>
    intro s hs u hu
    have h1 := changeTrack_shape v s hs
    cases rest with
    | nil =>
      have hu' : u = v := by
        simp at hu
        exact hu.symm
      subst hu'
      refine ⟨h1.1, h1.2.1, ?_, h1.2.2.2.1, h1.2.2.2.2⟩
      show (visStep (.changeTrack u) s).streams
          = [((visStep (.changeTrack u) s).gens.length - 1, u)]
      rw [h1.1, h1.2.2.1]
      simp
    | cons w ws =>
      rw [List.getLast?_cons_cons] at hu
      have h2 := ih (visStep (.changeTrack v) s) h1.2.2.2.2 u hu
      refine ⟨?_, h2.2.1, h2.2.2.1, h2.2.2.2.1, h2.2.2.2.2⟩
      show ((w :: ws).foldl (fun t v => visStep (.changeTrack v) t)
          (visStep (.changeTrack v) s)).gens.length
          = s.gens.length + (v :: w :: ws).length
      rw [h2.1, h1.1]
      simp only [List.length_cons]
      omega

theorem rapid_switch_final (urls : List String) (u : String)
    (hu : urls.getLast? = some u) :
    (visRun (urls.map VisEvent.changeTrack
        ++ [.metadataReady (urls.length - 1),
            .bufferReady (urls.length - 1)])).streams
      = [(urls.length - 1, u)] ∧
    (visRun (urls.map VisEvent.changeTrack
        ++ [.metadataReady (urls.length - 1),
            .bufferReady (urls.length - 1)])).graphs
      = [(urls.length - 1, u)] := by
  have hne : urls ≠ [] := by
    intro h
    rw [h] at hu
    exact Option.noConfusion hu
  have hpos : 0 < urls.length := List.length_pos.mpr hne
  have hfold : visRun (urls.map VisEvent.changeTrack
      ++ [.metadataReady (urls.length - 1), .bufferReady (urls.length - 1)])
      = visStep (.bufferReady (urls.length - 1))
          (visStep (.metadataReady (urls.length - 1))
            (urls.foldl (fun t v => visStep (.changeTrack v) t) visInit)) := by
    unfold visRun
    rw [List.foldl_append, List.foldl_map]
    rfl
  obtain ⟨hlen, hlast, hstreams, hgraphs, hinv⟩ :=
    switch_chain urls visInit visInv_init u hu
  have hlen' : (urls.foldl (fun t v => visStep (.changeTrack v) t)
      visInit).gens.length = urls.length := by
    rw [hlen]
    show visInit.gens.length + urls.length = urls.length
    simp [visInit]
  have hg1 : (urls.foldl (fun t v => visStep (.changeTrack v) t)
      visInit).gens[urls.length - 1]? = some ⟨u, false, .awaitMetadata⟩ := by
    rw [← hlen', ← List.getLast?_eq_getElem?]
    exact hlast
  have hlt : urls.length - 1 < (urls.foldl (fun t v => visStep (.changeTrack v) t)
      visInit).gens.length := by
    rw [hlen']
    omega
  have hsA := visStep_meta_live
    (urls.foldl (fun t v => visStep (.changeTrack v) t) visInit)
    (urls.length - 1) ⟨u, false, .awaitMetadata⟩ hg1 rfl rfl
  have hsB := visStep_buffer_live
    { urls.foldl (fun t v => visStep (.changeTrack v) t) visInit with
      gens := (urls.foldl (fun t v => visStep (.changeTrack v) t)
        visInit).gens.set (urls.length - 1)
          { (⟨u, false, .awaitMetadata⟩ : Generation) with pc := .awaitBuffer } }
    (urls.length - 1)
    { (⟨u, false, .awaitMetadata⟩ : Generation) with pc := .awaitBuffer }
    (List.getElem?_set_self hlt) rfl rfl
  rw [hfold, hsA, hsB]
  constructor
  · show (urls.foldl (fun t v => visStep (.changeTrack v) t) visInit).streams
        = [(urls.length - 1, u)]
    rw [hstreams, hlen']
  · show (urls.foldl (fun t v => visStep (.changeTrack v) t) visInit).graphs
        ++ [(urls.length - 1, u)] = [(urls.length - 1, u)]
    rw [hgraphs, List.nil_append]

/-- Claim C1: over the event-loop model of the visualizer's setup effect,
(1) every schedule keeps at most one media stream and at most one audio graph
open at any instant; (2) an event delivered to a superseded generation — its
cancellation flag set — performs no side effect on streams or graphs, because
the flag is checked at the delivery of every suspension point; and (3) any
rapid sequence of N track switches followed by the completion of the final
acquisition leaves exactly one open stream and one open graph, both bound to
the final (N-th) track's URL and owned by the final generation, all prior
generations' resources having been released. -/
theorem single_open_session :
    (∀ evs : List VisEvent,
      (visRun evs).streams.length ≤ 1 ∧ (visRun evs).graphs.length ≤ 1) ∧
    (∀ (s : VisState) (g : Nat) (gen : Generation) (b : Bool),
      s.gens[g]? = some gen → gen.cancelled = true →
      (visStep (.metadataReady g) s).streams = s.streams ∧
      (visStep (.metadataReady g) s).graphs = s.graphs ∧
      (visStep (.bufferReady g) s).streams = s.streams ∧
      (visStep (.bufferReady g) s).graphs = s.graphs ∧
      (visStep (.playSettled g) s).streams = s.streams ∧
      (visStep (.playSettled g) s).graphs = s.graphs ∧
      (visStep (.loadError g b) s).streams = s.streams ∧
      (visStep (.loadError g b) s).graphs = s.graphs) ∧
    (∀ (urls : List String) (u : String), urls.getLast? = some u →
      (visRun (urls.map VisEvent.changeTrack
          ++ [.metadataReady (urls.length - 1),
              .bufferReady (urls.length - 1)])).streams
        = [(urls.length - 1, u)] ∧
      (visRun (urls.map VisEvent.changeTrack
          ++ [.metadataReady (urls.length - 1),
              .bufferReady (urls.length - 1)])).graphs
        = [(urls.length - 1, u)]) :=
  ⟨fun evs => visInv_res_bound _ (visRun_inv evs),
   fun s g gen b hg hc => visStep_cancelled_frame s g gen b hg hc,
   fun urls u hu => rapid_switch_final urls u hu⟩

/-- Witness for C1: a one-switch schedule, a concrete cancelled generation, and
a concrete two-switch rapid sequence completing on the second track. -/
theorem single_open_session_witness :
    ((visRun [.changeTrack "a.webm"]).streams.length ≤ 1 ∧
      (visRun [.changeTrack "a.webm"]).graphs.length ≤ 1) ∧
    ((visStep (.metadataReady 0)
        ⟨[⟨"a.webm", true, .awaitMetadata⟩], [], []⟩).streams
        = (⟨[⟨"a.webm", true, .awaitMetadata⟩], [], []⟩ : VisState).streams ∧
      (visStep (.metadataReady 0)
        ⟨[⟨"a.webm", true, .awaitMetadata⟩], [], []⟩).graphs
        = (⟨[⟨"a.webm", true, .awaitMetadata⟩], [], []⟩ : VisState).graphs ∧
      (visStep (.bufferReady 0)
        ⟨[⟨"a.webm", true, .awaitMetadata⟩], [], []⟩).streams
        = (⟨[⟨"a.webm", true, .awaitMetadata⟩], [], []⟩ : VisState).streams ∧
      (visStep (.bufferReady 0)
        ⟨[⟨"a.webm", true, .awaitMetadata⟩], [], []⟩).graphs
        = (⟨[⟨"a.webm", true, .awaitMetadata⟩], [], []⟩ : VisState).graphs ∧
      (visStep (.playSettled 0)
        ⟨[⟨"a.webm", true, .awaitMetadata⟩], [], []⟩).streams
        = (⟨[⟨"a.webm", true, .awaitMetadata⟩], [], []⟩ : VisState).streams ∧
      (visStep (.playSettled 0)
        ⟨[⟨"a.webm", true, .awaitMetadata⟩], [], []⟩).graphs
        = (⟨[⟨"a.webm", true, .awaitMetadata⟩], [], []⟩ : VisState).graphs ∧
      (visStep (.loadError 0 true)
        ⟨[⟨"a.webm", true, .awaitMetadata⟩], [], []⟩).streams
        = (⟨[⟨"a.webm", true, .awaitMetadata⟩], [], []⟩ : VisState).streams ∧
      (visStep (.loadError 0 true)
        ⟨[⟨"a.webm", true, .awaitMetadata⟩], [], []⟩).graphs
        = (⟨[⟨"a.webm", true, .awaitMetadata⟩], [], []⟩ : VisState).graphs) ∧
    ((visRun (["a.webm", "b.webm"].map VisEvent.changeTrack
        ++ [.metadataReady (["a.webm", "b.webm"].length - 1),
            .bufferReady (["a.webm", "b.webm"].length - 1)])).streams
        = [(["a.webm", "b.webm"].length - 1, "b.webm")] ∧
      (visRun (["a.webm", "b.webm"].map VisEvent.changeTrack
        ++ [.metadataReady (["a.webm", "b.webm"].length - 1),
            .bufferReady (["a.webm", "b.webm"].length - 1)])).graphs
        = [(["a.webm", "b.webm"].length - 1, "b.webm")]) :=
  ⟨single_open_session.1 [.changeTrack "a.webm"],
   single_open_session.2.1 ⟨[⟨"a.webm", true, .awaitMetadata⟩], [], []⟩ 0
     ⟨"a.webm", true, .awaitMetadata⟩ true rfl rfl,
   single_open_session.2.2 ["a.webm", "b.webm"] "b.webm" (by decide)⟩

end Wavelength
